import Mathlib

/-!
# Verification of the KISS filesystem driver (src/student-distrib/fs/kissfs.cpp)

A shallow embedding of the read paths of `KissFS`:
`readData`, `readBlock`, `readDir`, `open`, `write`, `canSeek`, `getFileSize`,
together with theorems checking the natural-language specification against it.

Modelling conventions:
* `uint32_t` values are `Nat`; subtraction that can wrap is modelled
  explicitly with `% 2^32` (`u32sub`), as is the raw-block-id addition.
* The mapped image and caller data buffers are total functions `Nat → Nat`
  (byte at offset); `memcpy` is modelled pointwise.
* The decoded inode/dentry tables are total functions `Nat → inode_t` /
  `Nat → dentry_t`: the table occupies indices below `numInodes` /
  `numDentries`, and the value at any other index models whatever bytes sit
  in memory past the decoded table (the C++ code can read those via its
  `inode <= numInodes` bounds check).
* `readData` is additionally instrumented with a log of the calls it makes
  to `readBlock` (`BlockCall`), so that per-call properties can be stated.
* The directory-read path works on finite `List Nat` buffers; the C
  functions `strncpy`/`strlen` are modelled as partial (`Option`-valued)
  functions that are `some` exactly when every byte they touch lies inside
  the modelled regions, and `readDir` returns `none` when its behavior
  would depend on unmodelled adjacent memory (an unterminated filename
  field read past its end, a write past the caller's buffer, or `strlen`
  running past a terminator-free buffer).
-/

namespace filesystem

/-- Modelled from the spec: `BlockSize` is the fixed block size from the
missing header `inc/fs/kiss.h` (boot block, inode blocks and data blocks all
have this size); the KISS image format uses 4096-byte blocks, matching the
boot-block layout decoded in `initFromMemoryAddress` (12 header bytes plus a
52-byte skip, one inode per 4096-byte block). -/
def BlockSize : Nat := 4096

/-- Modelled from the spec: `MaxFilenameLength` from the missing header; the
dentry decode loop copies exactly this many filename bytes (32, given the
64-byte dentry record: 32 name bytes, two u32 fields, 24 bytes skipped). -/
def MaxFilenameLength : Nat := 32

/-- Source: `static const int SPECIAL_DEVICE = 0;` -/
def SPECIAL_DEVICE : Nat := 0

/-- Source: `static const int DIRECTORY = 1;` -/
def DIRECTORY : Nat := 1

/-- Source: `static const int NORMAL_FILE = 2;` -/
def NORMAL_FILE : Nat := 2

/-- `2^32`, the modulus of `uint32_t` arithmetic. -/
def U32MOD : Nat := 2 ^ 32

/-- `uint32_t` subtraction `a - b` (wraps around on underflow), for
`a, b < U32MOD`. -/
def u32sub (a b : Nat) : Nat := (a + U32MOD - b) % U32MOD

/-- Decoded inode record (`inode_t`): `size`, `numDataBlocks`, and the
data-block id array, modelled as a total function (the loop in `readData`
only reads indices below `numDataBlocks`). -/
structure inode_t where
  size : Nat
  numDataBlocks : Nat
  datablocks : Nat → Nat

/-- Decoded directory entry (`dentry_t`): 32 filename bytes (not guaranteed
null-terminated), `filetype` and `inode` index. -/
structure dentry_t where
  filename : List Nat
  filetype : Nat
  inode : Nat

/-- Post-initialization state of the filesystem (`class KissFS` fields):
the boot-block counters, `numBlocks` computed from the image length, the
decoded tables, the raw image bytes and the filename hash index
(`dentryIndexOfFilename.get`, modelled as a partial map). -/
structure KissFS where
  numDentries : Nat
  numInodes : Nat
  numTotalDataBlocks : Nat
  numBlocks : Nat
  dentries : Nat → dentry_t
  inodes : Nat → inode_t
  image : Nat → Nat
  dentryIndexOfFilename : List Nat → Option Nat

/-- Per-open-file state (`KissFileDescriptorData`): `filetype`, the `inode`
index (file branch of `open`), and the directory cursor `idx`/`max`
(directory branch of `open`; the stored `dentryData.base` pointer always
points at the filesystem's own dentry table, so it is not modelled
separately). -/
structure KissFileDescriptorData where
  filetype : Nat
  inode : Nat
  dirIdx : Nat
  dirMax : Nat
  deriving DecidableEq

/-- One call `readData` makes to `readBlock`, instrumented with the values
of the running `length` and `bytesRemaining` counters at the moment of the
call. `dst` is the offset `read` into the caller's buffer (`buf + read`). -/
structure BlockCall where
  datablockId : Nat
  blockOffset : Nat
  dst : Nat
  len : Nat
  lengthBefore : Nat
  bytesRemainingBefore : Nat
  deriving DecidableEq

/-- `memcpy(buf + dst, image + src, len)`: bytes `[dst, dst+len)` of the
buffer are overwritten with image bytes starting at `src`. -/
def memcpyFrom (image : Nat → Nat) (src : Nat) (buf : Nat → Nat) (dst len : Nat) :
    Nat → Nat :=
  fun j => if dst ≤ j ∧ j < dst + len then image (src + (j - dst)) else buf j

/-- `uint32_t rawBlockId = datablockId + numInodes + 1;` (u32 addition). -/
def KissFS.rawBlockIdOf (fs : KissFS) (datablockId : Nat) : Nat :=
  (datablockId + fs.numInodes + 1) % U32MOD

/-- `KissFS::readBlock(datablockId, offset, buf, len)`; `none` models
`return false` (no copy), `some buf2` models `return true` after the
`memcpy`.  `dst` is the offset of the pointer the C++ caller passes
(`buf + read`) inside the modelled buffer. -/
def KissFS.readBlock (fs : KissFS) (datablockId offset : Nat) (buf : Nat → Nat)
    (dst len : Nat) : Option (Nat → Nat) :=
  if fs.numBlocks ≤ fs.rawBlockIdOf datablockId then none
  else some (memcpyFrom fs.image (fs.rawBlockIdOf datablockId * BlockSize + offset) buf dst len)

/-- The `for (i = startingDataBlock; i < numDataBlocks; i++)` loop of
`KissFS::readData`, written as structural recursion on the number `rem` of
remaining iterations (`numDataBlocks - i`).  State carried through the loop:
`length`, `bytesRemaining`, `realOffset`, the accumulator `read`, the buffer,
and the instrumentation log of `readBlock` calls.  Result: the `int32_t`
return value, the final buffer, and the log. -/
def KissFS.readDataLoop (fs : KissFS) (ino : inode_t) :
    Nat → Nat → Nat → Nat → Nat → Nat → (Nat → Nat) → List BlockCall →
    Int × (Nat → Nat) × List BlockCall
  | 0, _i, _length, _bytesRemaining, _realOffset, readAcc, buf, calls =>
      ((readAcc : Int), buf, calls)
  | rem + 1, i, length, bytesRemaining, realOffset, readAcc, buf, calls =>
      let datablockId := ino.datablocks i
      if datablockId ≤ fs.numTotalDataBlocks then
        let len := min (min length bytesRemaining) BlockSize
        let call : BlockCall :=
          ⟨datablockId, realOffset, readAcc, len, length, bytesRemaining⟩
        match fs.readBlock datablockId realOffset buf readAcc len with
        | none => (-1, buf, calls ++ [call])
        | some buf2 =>
            if length - len = 0 then
              (((readAcc + len : Nat) : Int), buf2, calls ++ [call])
            else
              fs.readDataLoop ino rem (i + 1) (length - len) (bytesRemaining - len) 0
                (readAcc + len) buf2 (calls ++ [call])
      else (-1, buf, calls)

/-- `KissFS::readData(inode, offset, buf, length)`.  Faithful to the source:
the bounds check is `inode <= numInodes`, `bytesRemaining` is the u32
subtraction `inodes[inode].size - offset`, and the per-block length clamp is
`min(min(length, bytesRemaining), BlockSize)` (inside `readDataLoop`). -/
def KissFS.readData (fs : KissFS) (inode offset : Nat) (buf : Nat → Nat)
    (length : Nat) : Int × (Nat → Nat) × List BlockCall :=
  if inode ≤ fs.numInodes then
    fs.readDataLoop (fs.inodes inode)
      ((fs.inodes inode).numDataBlocks - offset / BlockSize) (offset / BlockSize)
      length (u32sub (fs.inodes inode).size offset) (offset % BlockSize) 0 buf []
  else (-1, buf, [])

/-- `KissFS::open(filename, fdData)`; `none` models `return false`
(filename absent from the hash index), `some d` the allocated descriptor.
`fresh` models the field values of the freshly `new`-allocated
`KissFileDescriptorData` before `open` assigns to it. -/
def KissFS.openFD (fs : KissFS) (filename : List Nat)
    (fresh : KissFileDescriptorData) : Option KissFileDescriptorData :=
  match fs.dentryIndexOfFilename filename with
  | none => none
  | some dentryIdx =>
      if (fs.dentries dentryIdx).filetype = DIRECTORY then
        some { fresh with filetype := (fs.dentries dentryIdx).filetype,
                          dirIdx := 0, dirMax := fs.numDentries }
      else
        some { fresh with filetype := (fs.dentries dentryIdx).filetype,
                          inode := (fs.dentries dentryIdx).inode }

/-- C `strlen` confined to a modelled memory region: `some k` when the
first zero byte of the region is at index `k`; `none` when the region holds
no zero byte, in which case C `strlen` would read past the region and its
result depends on unmodelled adjacent memory. -/
def cstrLen? : List Nat → Option Nat
  | [] => none
  | b :: rest => if b = 0 then some 0 else (cstrLen? rest).map (· + 1)

/-- The zero padding C `strncpy` writes after it has copied the source's
terminator: `n` zero bytes into the destination region; `none` when the
region is shorter than `n` (C would write past it). -/
def zeroFill? : List Nat → Nat → Option (List Nat)
  | dst, 0 => some dst
  | [], _ + 1 => none
  | _d :: ds, n + 1 => (zeroFill? ds n).map (fun r => 0 :: r)

/-- C `strncpy(dst, src, n)`, modelled exactly where every byte it touches
lies inside the two regions: `none` when the copy would read past the end
of `src` (the bytes it copies contain no terminator and `src`'s region
ends) or write past the end of `dst` (`n` exceeds the destination region);
otherwise `some` of the written destination region. -/
def strncpy? : List Nat → List Nat → Nat → Option (List Nat)
  | dst, _, 0 => some dst
  | [], _, _ + 1 => none
  | _ :: _, [], _ + 1 => none
  | _d :: ds, s :: ss, n + 1 =>
      if s = 0 then (zeroFill? ds n).map (fun r => 0 :: r)
      else (strncpy? ds ss n).map (fun r => s :: r)

/-- `KissFS::readDir(fdData, offset, buf, len)`: if the cursor reached
`max`, return 0; otherwise `strncpy` the current dentry's filename into
`buf` (at most `len` bytes), advance the cursor, and return `strlen(buf)`.
`offset` is an argument of the C++ function but is never read.  The result
is `none` exactly when the C calls would touch memory outside the modelled
regions (`strncpy` reading past an unterminated filename field or writing
past `buf`, or `strlen` running past a terminator-free `buf`): that
behavior depends on unmodelled adjacent memory and is left unspecified. -/
def KissFS.readDir (fs : KissFS) (data : KissFileDescriptorData) (_offset : Nat)
    (buf : List Nat) (len : Nat) :
    Option (Int × KissFileDescriptorData × List Nat) :=
  if data.dirMax ≤ data.dirIdx then some (0, data, buf)
  else
    match strncpy? buf (fs.dentries data.dirIdx).filename len with
    | none => none
    | some buf2 =>
        match cstrLen? buf2 with
        | none => none
        | some k => some ((k : Int), { data with dirIdx := data.dirIdx + 1 }, buf2)

/-- `n` successive `readDir` calls (always with offset 0, which `readDir`
ignores), threading descriptor state and buffer; returns the list of the
`n` return values, or `none` as soon as one call is unmodelled. -/
def KissFS.readDirTrace (fs : KissFS) (len : Nat) :
    Nat → KissFileDescriptorData → List Nat → Option (List Int)
  | 0, _, _ => some []
  | n + 1, data, buf =>
      match fs.readDir data 0 buf len with
      | none => none
      | some r => (fs.readDirTrace len n r.2.1 r.2.2).map (fun t => r.1 :: t)

/-- `KissFS::write`: `return -1;` touching neither the filesystem nor the
descriptor (both are returned unchanged to make that explicit). -/
def KissFS.write (fs : KissFS) (data : KissFileDescriptorData) (_offset : Nat)
    (_buf : List Nat) (_len : Nat) : Int × KissFS × KissFileDescriptorData :=
  (-1, fs, data)

/-- `KissFS::canSeek`: true only for `NORMAL_FILE`. -/
def KissFS.canSeek (_fs : KissFS) (data : KissFileDescriptorData) : Bool :=
  if data.filetype = NORMAL_FILE then true else false

/-- `KissFS::getFileSize`: `Nothing` unless `NORMAL_FILE`, else
`inodes[data->inode].size`. -/
def KissFS.getFileSize (fs : KissFS) (data : KissFileDescriptorData) :
    Option Nat :=
  if data.filetype ≠ NORMAL_FILE then none
  else some ((fs.inodes data.inode).size)

/-! ## Concrete states used by witnesses and counterexamples -/

/-- An all-zero dentry record. -/
def dzero : dentry_t := ⟨List.replicate 32 0, 0, 0⟩

/-- An all-zero inode record. -/
def izero : inode_t := ⟨0, 0, fun _ => 0⟩

/-- A descriptor with every field zero (the model of a freshly allocated,
not yet assigned `KissFileDescriptorData`). -/
def fresh0 : KissFileDescriptorData := ⟨0, 0, 0, 0⟩

/-- Filesystem with `numInodes = 1`; the record returned by `inodes` at
index 1 models the memory that happens to sit one past the decoded inode
table (here: all-zero bytes, i.e. `size = 0`, `numDataBlocks = 0`). -/
def fs1 : KissFS where
  numDentries := 0
  numInodes := 1
  numTotalDataBlocks := 10
  numBlocks := 100
  dentries := fun _ => dzero
  inodes := fun i => if i = 0 then ⟨10, 1, fun _ => 0⟩ else izero
  image := fun a => a % 256
  dentryIndexOfFilename := fun _ => none

/-- Filesystem whose inode 0 describes an 8192-byte file stored in logical
data blocks 0 and 1. -/
def fs2 : KissFS where
  numDentries := 0
  numInodes := 1
  numTotalDataBlocks := 10
  numBlocks := 100
  dentries := fun _ => dzero
  inodes := fun i => if i = 0 then ⟨8192, 2, fun j => j⟩ else izero
  image := fun a => a % 256
  dentryIndexOfFilename := fun _ => none

/-- Filesystem whose inode 0 has `size = 3` (for the offset-past-end
witness). -/
def fs4 : KissFS where
  numDentries := 0
  numInodes := 1
  numTotalDataBlocks := 10
  numBlocks := 100
  dentries := fun _ => dzero
  inodes := fun i => if i = 0 then ⟨3, 1, fun _ => 0⟩ else izero
  image := fun a => a % 256
  dentryIndexOfFilename := fun _ => none

/-- The stored filename bytes of `"."` (32-byte field). -/
def nameDot : List Nat := 46 :: List.replicate 31 0

/-- The stored filename bytes of `"abc"` (32-byte field). -/
def nameAbc : List Nat := 97 :: 98 :: 99 :: List.replicate 29 0

/-- Directory example: dentry 0 is the directory `"."`, dentry 1 the normal
file `"abc"`. -/
def fsD : KissFS where
  numDentries := 2
  numInodes := 0
  numTotalDataBlocks := 0
  numBlocks := 1
  dentries := fun i =>
    if i = 0 then ⟨nameDot, DIRECTORY, 0⟩
    else if i = 1 then ⟨nameAbc, NORMAL_FILE, 0⟩
    else dzero
  inodes := fun _ => izero
  image := fun _ => 0
  dentryIndexOfFilename := fun s =>
    if s = nameDot then some 0 else if s = nameAbc then some 1 else none

/-- The descriptor `open(".")` produces on `fsD`. -/
def dDirD : KissFileDescriptorData := ⟨DIRECTORY, 0, 0, 2⟩

/-- A 10-byte caller buffer holding `"AAAAAAAAA"` (nine `A`s and its null
terminator). -/
def bufA : List Nat := [65, 65, 65, 65, 65, 65, 65, 65, 65, 0]

/-- The stored filename bytes of `"h"` (32-byte field). -/
def name6 : List Nat := 104 :: List.replicate 31 0

/-- Filesystem whose hash index maps `"h"` to dentry 0, a normal file on
inode 7. -/
def fs6 : KissFS where
  numDentries := 1
  numInodes := 1
  numTotalDataBlocks := 10
  numBlocks := 100
  dentries := fun _ => ⟨name6, NORMAL_FILE, 7⟩
  inodes := fun _ => izero
  image := fun a => a % 256
  dentryIndexOfFilename := fun s => if s = name6 then some 0 else none

/-- A normal-file descriptor on inode 0. -/
def d8 : KissFileDescriptorData := ⟨NORMAL_FILE, 0, 0, 0⟩

/-- Inode whose block list starts with data-block id 11 (greater than
`fs1.numTotalDataBlocks`). -/
def ino9a : inode_t := ⟨0, 1, fun _ => 11⟩

/-- Inode whose block list starts with data-block id 10 (exactly
`fs1.numTotalDataBlocks`). -/
def ino9b : inode_t := ⟨0, 1, fun _ => 10⟩

/-- A constant caller buffer. -/
def buf5 : Nat → Nat := fun _ => 7

/-! ## Theorems -/

/-- **C7.** `write` always fails with `-1` (ReadOnly) and changes neither
the filesystem nor the descriptor state. -/
theorem write_always_readonly (fs : KissFS) (data : KissFileDescriptorData)
    (offset : Nat) (buf : List Nat) (len : Nat) :
    fs.write data offset buf len = (-1, fs, data) := rfl

/-- **C8.** `canSeek` is true iff the descriptor's filetype is
`NORMAL_FILE`, and `getFileSize` is `some inode.size` for `NORMAL_FILE` and
`none` otherwise. -/
theorem canSeek_getFileSize_spec (fs : KissFS) (data : KissFileDescriptorData) :
    (fs.canSeek data = true ↔ data.filetype = NORMAL_FILE) ∧
    fs.getFileSize data =
      (if data.filetype = NORMAL_FILE then some ((fs.inodes data.inode).size)
       else none) := by
  constructor
  · by_cases h : data.filetype = NORMAL_FILE <;> simp [KissFS.canSeek, h]
  · by_cases h : data.filetype = NORMAL_FILE <;> simp [KissFS.getFileSize, h]

/-- Witness for `canSeek_getFileSize_spec` at the concrete normal-file
descriptor `d8`. -/
theorem canSeek_getFileSize_spec_witness : fs1.canSeek d8 = true :=
  (canSeek_getFileSize_spec fs1 d8).1.mpr (by decide)

/-- **C1.** The claim says a call with `inode = numInodes` must fail with
`-1` and copy nothing.  The code's bounds check is `inode <= numInodes`, so
for *every* state the call at index `numInodes` passes the check and
proceeds into the block loop using the record one past the decoded inode
table (first conjunct); on the concrete state `fs1` (where that
out-of-table record is all zero bytes) the call returns `0`, not `-1`
(second conjunct). -/
theorem readData_accepts_index_numInodes :
    (∀ (fs : KissFS) (offset : Nat) (buf : Nat → Nat) (length : Nat),
      fs.readData fs.numInodes offset buf length =
        fs.readDataLoop (fs.inodes fs.numInodes)
          ((fs.inodes fs.numInodes).numDataBlocks - offset / BlockSize)
          (offset / BlockSize) length (u32sub (fs.inodes fs.numInodes).size offset)
          (offset % BlockSize) 0 buf []) ∧
    (fs1.readData 1 0 (fun _ => 0) 10).1 = 0 ∧
    (fs1.readData 1 0 (fun _ => 0) 10).2.2 = [] := by
  refine ⟨fun fs offset buf length => ?_, rfl, rfl⟩
  simp [KissFS.readData]

/-- **C2.** The claim says each iteration copies
`min(length, bytesRemaining, BlockSize - blockLocalOffset)` bytes, so every
`readBlock` call satisfies `blockOffset + len ≤ BlockSize`.  In the code the
clamp is only `min(length, bytesRemaining, BlockSize)`: on `fs2` with
`offset = 1` and `length = 8191` the first `readBlock` call has
`blockOffset = 1` and `len = 4096`, which exceeds `BlockSize` by one byte
and differs from the claimed minimum `4095`. -/
theorem readData_crosses_block_boundary :
    (fs2.readData 0 1 (fun _ => 0) 8191).2.2.head? =
      some ⟨0, 1, 0, 4096, 8191, 8191⟩ ∧
    BlockSize < 1 + 4096 ∧
    min (min 8191 8191) (BlockSize - 1) = 4095 :=
  ⟨rfl, by decide, by decide⟩

/-- **C4.** For a valid inode index and `offset > inode.size`, `readData`
enters its block loop with `bytesRemaining` computed by the wrapping u32
subtraction: it equals `(inode.size - offset) mod 2^32` (as integers) and in
particular is not `0`, and no error is signalled at this point. -/
theorem readData_offset_past_end_underflow (fs : KissFS) (ino offset : Nat)
    (buf : Nat → Nat) (length : Nat) (h1 : ino ≤ fs.numInodes)
    (h2 : (fs.inodes ino).size < offset) (h3 : offset < U32MOD) :
    (fs.readData ino offset buf length =
      fs.readDataLoop (fs.inodes ino)
        ((fs.inodes ino).numDataBlocks - offset / BlockSize) (offset / BlockSize)
        length (u32sub (fs.inodes ino).size offset) (offset % BlockSize) 0 buf []) ∧
    ((u32sub (fs.inodes ino).size offset : Int) =
      (((fs.inodes ino).size : Int) - (offset : Int)) % (U32MOD : Int)) ∧
    u32sub (fs.inodes ino).size offset ≠ 0 := by
  have hU : U32MOD = 4294967296 := by norm_num [U32MOD]
  refine ⟨?_, ?_, ?_⟩
  · simp [KissFS.readData, h1]
  · simp only [u32sub, hU] at h3 ⊢
    omega
  · simp only [u32sub, hU] at h3 ⊢
    omega

/-- Witness for `readData_offset_past_end_underflow`: on `fs4`
(`inode 0` has size 3) with `offset = 5` the hypotheses hold and the
underflowed `bytesRemaining` is `(3 - 5) mod 2^32`. -/
theorem readData_offset_past_end_underflow_witness :
    (fs4.inodes 0).size < 5 ∧
    ((u32sub (fs4.inodes 0).size 5 : Int) =
      (((fs4.inodes 0).size : Int) - (5 : Int)) % (U32MOD : Int)) ∧
    u32sub (fs4.inodes 0).size 5 ≠ 0 :=
  ⟨by decide,
   (readData_offset_past_end_underflow fs4 0 5 (fun _ => 0) 0 (by decide)
     (by decide) (by decide)).2⟩

/-- **C5.** `readBlock(datablockId, blockOffset, buf, len)` fails exactly
when the raw block id `datablockId + numInodes + 1` (u32 addition) reaches
`numBlocks`, copying nothing; otherwise it succeeds, overwriting exactly
bytes `[dst, dst+len)` of the buffer with the image bytes starting at
offset `rawBlockId * BlockSize + blockOffset` and leaving every other byte
untouched. -/
theorem readBlock_spec (fs : KissFS) (datablockId offset : Nat)
    (buf : Nat → Nat) (dst len : Nat) :
    (fs.readBlock datablockId offset buf dst len = none ↔
      fs.numBlocks ≤ fs.rawBlockIdOf datablockId) ∧
    (fs.rawBlockIdOf datablockId < fs.numBlocks →
      ∃ buf2, fs.readBlock datablockId offset buf dst len = some buf2 ∧
        (∀ j, dst ≤ j → j < dst + len →
          buf2 j = fs.image (fs.rawBlockIdOf datablockId * BlockSize + offset + (j - dst))) ∧
        (∀ j, j < dst ∨ dst + len ≤ j → buf2 j = buf j)) := by
  constructor
  · constructor
    · intro h
      by_contra hc
      simp [KissFS.readBlock, hc] at h
    · intro h
      simp [KissFS.readBlock, h]
  · intro h
    refine ⟨memcpyFrom fs.image (fs.rawBlockIdOf datablockId * BlockSize + offset) buf dst len,
      ?_, ?_, ?_⟩
    · simp [KissFS.readBlock, Nat.not_le.mpr h]
    · intro j hj1 hj2
      simp [memcpyFrom, hj1, hj2]
    · intro j hj
      have : ¬ (dst ≤ j ∧ j < dst + len) := by omega
      simp [memcpyFrom, this]

/-- Witness for `readBlock_spec`: on `fs5mini := fs1` with
`datablockId = 2` the raw block id is `4 < numBlocks = 100` and the copy
characterization holds for a 4-byte copy at buffer offset 0. -/
theorem readBlock_spec_witness :
    fs1.rawBlockIdOf 2 < fs1.numBlocks ∧
    (∃ buf2, fs1.readBlock 2 3 buf5 0 4 = some buf2 ∧
      (∀ j, 0 ≤ j → j < 0 + 4 →
        buf2 j = fs1.image (fs1.rawBlockIdOf 2 * BlockSize + 3 + (j - 0))) ∧
      (∀ j, j < 0 ∨ 0 + 4 ≤ j → buf2 j = buf5 j)) :=
  ⟨by decide, (readBlock_spec fs1 2 3 buf5 0 4).2 (by decide)⟩

/-- The `readBlock`-call log produced by the block loop only ever grows:
whatever the loop does, its final log extends the log it was started
with. -/
theorem readDataLoop_log_extends (fs : KissFS) (ino : inode_t) :
    ∀ (rem i length bytesRemaining realOffset readAcc : Nat) (buf : Nat → Nat)
      (calls : List BlockCall),
      ∃ rest,
        (fs.readDataLoop ino rem i length bytesRemaining realOffset readAcc buf calls).2.2 =
          calls ++ rest := by
  intro rem
  induction rem with
  | zero =>
      intro i length bytesRemaining realOffset readAcc buf calls
      exact ⟨[], by simp [KissFS.readDataLoop]⟩
  | succ n ih =>
      intro i length bytesRemaining realOffset readAcc buf calls
      simp only [KissFS.readDataLoop]
      by_cases hid : ino.datablocks i ≤ fs.numTotalDataBlocks
      · simp only [hid, if_true]
        cases hrb : fs.readBlock (ino.datablocks i) realOffset buf readAcc
            (min (min length bytesRemaining) BlockSize) with
        | none => exact ⟨_, rfl⟩
        | some buf2 =>
            by_cases hz : length - min (min length bytesRemaining) BlockSize = 0
            · simp only [hz, if_true]
              exact ⟨_, rfl⟩
            · simp only [hz, if_false]
              obtain ⟨rest, hrest⟩ := ih (i + 1)
                (length - min (min length bytesRemaining) BlockSize)
                (bytesRemaining - min (min length bytesRemaining) BlockSize) 0
                (readAcc + min (min length bytesRemaining) BlockSize) buf2
                (calls ++ [⟨ino.datablocks i, realOffset, readAcc,
                  min (min length bytesRemaining) BlockSize, length, bytesRemaining⟩])
              exact ⟨_, by rw [hrest, List.append_assoc]⟩
      · simp only [hid, if_false]
        exact ⟨[], by simp⟩

/-- **C9.** One iteration of the block loop: a data-block id strictly
greater than `numTotalDataBlocks` aborts the whole read with `-1` before
any `readBlock` call for that block (buffer and call log unchanged); an id
exactly equal to `numTotalDataBlocks` passes the pre-check and the loop
proceeds to call `readBlock` on it (the call, with the clamp
`min(min length bytesRemaining) BlockSize` the code computes, is appended
to the log). -/
theorem readDataLoop_blockId_check (fs : KissFS) (ino : inode_t)
    (rem i length bytesRemaining realOffset readAcc : Nat) (buf : Nat → Nat)
    (calls : List BlockCall) :
    (fs.numTotalDataBlocks < ino.datablocks i →
      fs.readDataLoop ino (rem + 1) i length bytesRemaining realOffset readAcc buf calls =
        (-1, buf, calls)) ∧
    (ino.datablocks i = fs.numTotalDataBlocks →
      ∃ rest,
        (fs.readDataLoop ino (rem + 1) i length bytesRemaining realOffset readAcc buf calls).2.2 =
          calls ++ ⟨ino.datablocks i, realOffset, readAcc,
            min (min length bytesRemaining) BlockSize, length, bytesRemaining⟩ :: rest) := by
  constructor
  · intro h
    have hid : ¬ ino.datablocks i ≤ fs.numTotalDataBlocks := by omega
    simp [KissFS.readDataLoop, hid]
  · intro h
    have hid : ino.datablocks i ≤ fs.numTotalDataBlocks := le_of_eq h
    simp only [KissFS.readDataLoop, hid, if_true]
    cases hrb : fs.readBlock (ino.datablocks i) realOffset buf readAcc
        (min (min length bytesRemaining) BlockSize) with
    | none => exact ⟨[], rfl⟩
    | some buf2 =>
        by_cases hz : length - min (min length bytesRemaining) BlockSize = 0
        · simp only [hz, if_true]
          exact ⟨[], rfl⟩
        · simp only [hz, if_false]
          obtain ⟨rest, hrest⟩ := readDataLoop_log_extends fs ino rem (i + 1)
            (length - min (min length bytesRemaining) BlockSize)
            (bytesRemaining - min (min length bytesRemaining) BlockSize) 0
            (readAcc + min (min length bytesRemaining) BlockSize) buf2
            (calls ++ [⟨ino.datablocks i, realOffset, readAcc,
              min (min length bytesRemaining) BlockSize, length, bytesRemaining⟩])
          exact ⟨rest, by rw [hrest, List.append_assoc]; rfl⟩

/-- Witness for `readDataLoop_blockId_check`: on `fs1`
(`numTotalDataBlocks = 10`), an inode whose first block id is 11 makes one
loop iteration abort with `-1` and an empty log, while an inode whose first
block id is exactly 10 gets its `readBlock` call logged. -/
theorem readDataLoop_blockId_check_witness :
    (fs1.readDataLoop ino9a 1 0 5 5 0 0 (fun _ => 0) [] = (-1, fun _ => 0, [])) ∧
    (∃ rest, (fs1.readDataLoop ino9b 1 0 5 5 0 0 (fun _ => 0) []).2.2 =
      [] ++ ⟨ino9b.datablocks 0, 0, 0, min (min 5 5) BlockSize, 5, 5⟩ :: rest) :=
  ⟨(readDataLoop_blockId_check fs1 ino9a 0 0 5 5 0 0 (fun _ => 0) []).1 (by decide),
   (readDataLoop_blockId_check fs1 ino9b 0 0 5 5 0 0 (fun _ => 0) []).2 (by decide)⟩

/-- Loop invariant behind C10: every call the loop adds to the log copies
at most the `length` counter it saw, and a non-negative loop result is at
most `readAcc + length`. -/
theorem readDataLoop_bounds (fs : KissFS) (ino : inode_t) :
    ∀ (rem i length bytesRemaining realOffset readAcc : Nat) (buf : Nat → Nat)
      (calls : List BlockCall),
      (∀ c ∈ (fs.readDataLoop ino rem i length bytesRemaining realOffset readAcc buf calls).2.2,
        c ∈ calls ∨ c.len ≤ c.lengthBefore) ∧
      (0 ≤ (fs.readDataLoop ino rem i length bytesRemaining realOffset readAcc buf calls).1 →
        (fs.readDataLoop ino rem i length bytesRemaining realOffset readAcc buf calls).1 ≤
          (readAcc : Int) + (length : Int)) := by
  intro rem
  induction rem with
  | zero =>
      intro i length bytesRemaining realOffset readAcc buf calls
      constructor
      · intro c hc
        exact Or.inl hc
      · intro _
        simp only [KissFS.readDataLoop]
        omega
  | succ n ih =>
      intro i length bytesRemaining realOffset readAcc buf calls
      simp only [KissFS.readDataLoop]
      by_cases hid : ino.datablocks i ≤ fs.numTotalDataBlocks
      · simp only [hid, if_true]
        have hlen : min (min length bytesRemaining) BlockSize ≤ length :=
          le_trans (min_le_left _ _) (min_le_left _ _)
        cases hrb : fs.readBlock (ino.datablocks i) realOffset buf readAcc
            (min (min length bytesRemaining) BlockSize) with
        | none =>
            constructor
            · intro c hc
              rcases List.mem_append.mp hc with h | h
              · exact Or.inl h
              · right
                rcases List.mem_singleton.mp h with rfl
                exact hlen
            · intro h
              exact absurd h (by norm_num)
        | some buf2 =>
            by_cases hz : length - min (min length bytesRemaining) BlockSize = 0
            · simp only [hz, if_true]
              constructor
              · intro c hc
                rcases List.mem_append.mp hc with h | h
                · exact Or.inl h
                · right
                  rcases List.mem_singleton.mp h with rfl
                  exact hlen
              · intro _
                push_cast
                omega
            · simp only [hz, if_false]
              obtain ⟨iha, ihb⟩ := ih (i + 1)
                (length - min (min length bytesRemaining) BlockSize)
                (bytesRemaining - min (min length bytesRemaining) BlockSize) 0
                (readAcc + min (min length bytesRemaining) BlockSize) buf2
                (calls ++ [⟨ino.datablocks i, realOffset, readAcc,
                  min (min length bytesRemaining) BlockSize, length, bytesRemaining⟩])
              constructor
              · intro c hc
                rcases iha c hc with h | h
                · rcases List.mem_append.mp h with h2 | h2
                  · exact Or.inl h2
                  · right
                    rcases List.mem_singleton.mp h2 with rfl
                    exact hlen
                · exact Or.inr h
              · intro h
                have := ihb h
                push_cast at this ⊢
                omega
      · simp only [hid, if_false]
        constructor
        · intro c hc
          exact Or.inl hc
        · intro h
          exact absurd h (by norm_num)

/-- **C10.** Every `readBlock` call `readData` issues copies at most the
remaining requested length (so the unsigned `length -= len` decrement never
underflows), and whenever `readData` returns a non-negative value it is at
most the originally requested `length`. -/
theorem readData_result_le_length (fs : KissFS) (inode offset : Nat)
    (buf : Nat → Nat) (length : Nat) :
    (∀ c ∈ (fs.readData inode offset buf length).2.2, c.len ≤ c.lengthBefore) ∧
    (0 ≤ (fs.readData inode offset buf length).1 →
      (fs.readData inode offset buf length).1 ≤ (length : Int)) := by
  by_cases h : inode ≤ fs.numInodes
  · simp only [KissFS.readData, h, if_true]
    obtain ⟨ha, hb⟩ := readDataLoop_bounds fs (fs.inodes inode)
      ((fs.inodes inode).numDataBlocks - offset / BlockSize) (offset / BlockSize)
      length (u32sub (fs.inodes inode).size offset) (offset % BlockSize) 0 buf []
    constructor
    · intro c hc
      rcases ha c hc with h2 | h2
      · exact absurd h2 (List.not_mem_nil c)
      · exact h2
    · intro h2
      have := hb h2
      omega
  · simp only [KissFS.readData, h, if_false]
    constructor
    · intro c hc
      exact absurd hc (List.not_mem_nil c)
    · intro h2
      exact absurd h2 (by norm_num)

/-- Witness for `readData_result_le_length`: the concrete read on `fs2`
returns `8191 ≤ 8191`. -/
theorem readData_result_le_length_witness :
    (fs2.readData 0 1 (fun _ => 0) 8191).1 ≤ (8191 : Int) :=
  (readData_result_le_length fs2 0 1 (fun _ => 0) 8191).2 (by decide)

/-- **C6.** `open` fails exactly when the filename is absent from the hash
index; on success the allocated descriptor carries the matched dentry's
filetype, and for non-directory entries records the dentry's inode
index. -/
theorem openFD_spec (fs : KissFS) (filename : List Nat)
    (fresh : KissFileDescriptorData) :
    (fs.openFD filename fresh = none ↔
      fs.dentryIndexOfFilename filename = none) ∧
    (∀ dentryIdx, fs.dentryIndexOfFilename filename = some dentryIdx →
      ∃ d, fs.openFD filename fresh = some d ∧
        d.filetype = (fs.dentries dentryIdx).filetype ∧
        ((fs.dentries dentryIdx).filetype ≠ DIRECTORY →
          d.inode = (fs.dentries dentryIdx).inode)) := by
  cases h : fs.dentryIndexOfFilename filename with
  | none =>
      constructor
      · simp [KissFS.openFD, h]
      · intro dentryIdx hidx
        exact absurd hidx (by simp)
  | some idx =>
      constructor
      · constructor
        · intro hnone
          by_cases hft : (fs.dentries idx).filetype = DIRECTORY <;>
            simp [KissFS.openFD, h, hft] at hnone
        · intro hnone
          exact absurd hnone (by simp)
      · intro dentryIdx hidx
        obtain rfl : idx = dentryIdx := by injection hidx
        by_cases hft : (fs.dentries idx).filetype = DIRECTORY
        · refine ⟨⟨(fs.dentries idx).filetype, fresh.inode, 0, fs.numDentries⟩,
            ?_, rfl, fun hne => absurd hft hne⟩
          simp [KissFS.openFD, h, hft]
        · refine ⟨⟨(fs.dentries idx).filetype, (fs.dentries idx).inode,
            fresh.dirIdx, fresh.dirMax⟩, ?_, rfl, fun _ => rfl⟩
          simp [KissFS.openFD, h, hft]

/-- Witness for `openFD_spec`: on `fs6`, where the index maps `"h"` to
dentry 0 (a normal file on inode 7), `open` succeeds with that filetype and
inode. -/
theorem openFD_spec_witness :
    ∃ d, fs6.openFD name6 fresh0 = some d ∧
      d.filetype = (fs6.dentries 0).filetype ∧
      ((fs6.dentries 0).filetype ≠ DIRECTORY → d.inode = (fs6.dentries 0).inode) :=
  (openFD_spec fs6 name6 fresh0).2 0 (by decide)

/-- The zero padding succeeds exactly on destinations long enough for it,
and keeps the region's length. -/
theorem zeroFill?_spec : ∀ (dst : List Nat) (n : Nat), n ≤ dst.length →
    ∃ r, zeroFill? dst n = some r ∧ r.length = dst.length := by
  intro dst
  induction dst with
  | nil =>
      intro n h
      obtain rfl : n = 0 := by simpa using h
      exact ⟨[], rfl, rfl⟩
  | cons d ds ih =>
      intro n h
      cases n with
      | zero => exact ⟨d :: ds, rfl, rfl⟩
      | succ m =>
          obtain ⟨r, hr, hlen⟩ := ih m (by simpa using h)
          exact ⟨0 :: r, by simp [zeroFill?, hr], by simp [hlen]⟩

/-- When the source string's terminator is inside its region at index
`k < n` and the destination region holds at least `n` bytes, `strncpy`
stays inside both regions: it succeeds, the written region again has the
terminator at index `k` (so a following `strlen` returns `k`), and the
region keeps its length. -/
theorem strncpy?_spec : ∀ (dst src : List Nat) (n k : Nat),
    cstrLen? src = some k → k < n → n ≤ dst.length →
    ∃ r, strncpy? dst src n = some r ∧ cstrLen? r = some k ∧
      r.length = dst.length := by
  intro dst
  induction dst with
  | nil =>
      intro src n k h1 h2 h3
      simp only [List.length_nil, Nat.le_zero] at h3
      omega
  | cons d ds ih =>
      intro src n k h1 h2 h3
      cases n with
      | zero => omega
      | succ m =>
          cases src with
          | nil => simp [cstrLen?] at h1
          | cons s ss =>
              by_cases hs : s = 0
              · have hk : k = 0 := by
                  simp only [cstrLen?, hs, if_true] at h1
                  exact (Option.some.inj h1).symm
                obtain ⟨r0, hz, hlen⟩ := zeroFill?_spec ds m (by simpa using h3)
                refine ⟨0 :: r0, ?_, ?_, ?_⟩
                · simp [strncpy?, hs, hz]
                · simp [cstrLen?, hk]
                · simp [hlen]
              · cases hss : cstrLen? ss with
                | none => simp [cstrLen?, hs, hss] at h1
                | some k2 =>
                    have hk : k = k2 + 1 := by
                      simp only [cstrLen?, hs, if_false, hss, Option.map_some'] at h1
                      exact (Option.some.inj h1).symm
                    obtain ⟨r0, h1a, h2a, h3a⟩ := ih ss m k2 hss (by omega)
                      (by simpa using h3)
                    refine ⟨s :: r0, ?_, ?_, ?_⟩
                    · simp [strncpy?, hs, h1a]
                    · simp [cstrLen?, hs, h2a, hk]
                    · simp [h3a]

/-- Unfolding one step of `readDirTrace` when the `readDir` call is
modelled. -/
theorem readDirTrace_succ (fs : KissFS) (len n : Nat)
    (data : KissFileDescriptorData) (buf : List Nat)
    (r : Int × KissFileDescriptorData × List Nat)
    (h : fs.readDir data 0 buf len = some r) :
    fs.readDirTrace len (n + 1) data buf =
      (fs.readDirTrace len n r.2.1 r.2.2).map (fun t => r.1 :: t) := by
  simp only [KissFS.readDirTrace, h]

/-- Directory iteration trace: starting from cursor `j` with `k` dentries
left (`j + k = numDentries`), `k + 1` successive `readDir` calls return the
string lengths of the dentry filenames in decode order followed by `0` —
provided every filename's terminator lies inside its field at an index
below `len` and the buffer holds at least `len` bytes (so every C call
stays inside the modelled regions). -/
theorem readDirTrace_spec (fs : KissFS) (len : Nat)
    (hnames : ∀ i, i < fs.numDentries →
      ∃ k, cstrLen? (fs.dentries i).filename = some k ∧ k < len) :
    ∀ (k j ft ino : Nat) (buf : List Nat), j + k = fs.numDentries →
      len ≤ buf.length →
      fs.readDirTrace len (k + 1) ⟨ft, ino, j, fs.numDentries⟩ buf =
        some (((List.range' j k).map
          fun i => (((cstrLen? (fs.dentries i).filename).getD 0 : Nat) : Int)) ++ [0]) := by
  intro k
  induction k with
  | zero =>
      intro j ft ino buf hj hlen
      have hterm : fs.numDentries ≤ j := by omega
      simp [KissFS.readDirTrace, KissFS.readDir, hterm]
  | succ m ih =>
      intro j ft ino buf hj hlen
      have hlt : ¬ fs.numDentries ≤ j := by omega
      obtain ⟨kj, hkj, hkjlen⟩ := hnames j (by omega)
      obtain ⟨buf2, hcpy, hcl, hblen⟩ :=
        strncpy?_spec buf (fs.dentries j).filename len kj hkj hkjlen hlen
      have hr : fs.readDir ⟨ft, ino, j, fs.numDentries⟩ 0 buf len =
          some ((kj : Int), ⟨ft, ino, j + 1, fs.numDentries⟩, buf2) := by
        simp [KissFS.readDir, hlt, hcpy, hcl]
      have hlen2 : len ≤ buf2.length := by
        rw [hblen]
        exact hlen
      rw [readDirTrace_succ fs len (m + 1) _ buf _ hr]
      rw [ih (j + 1) ft ino buf2 (by omega) hlen2]
      simp [List.range', hkj]

/-- **C3 (counterexample).** The claim says each in-range `read` returns
the copied length — here the filename `"."` truncated to `len = 1` byte,
so copied length 1.  On `fsD`, `open(".")` yields the directory descriptor
`dDirD` (cursor 0, max 2), and `readDir` with `len = 1` into the 10-byte
buffer `"AAAAAAAAA\0"` returns `strlen(buf) = 9`, not 1: the code returns
the string length of the whole buffer after an unterminated 1-byte copy
(every byte the C calls touch lies inside the two modelled regions here,
so the model is exact on this input). -/
theorem readDir_returns_strlen_not_copied_length :
    fsD.openFD nameDot fresh0 = some dDirD ∧
    fsD.readDir dDirD 0 bufA 1 =
      some (9, ⟨DIRECTORY, 0, 1, 2⟩, [46, 65, 65, 65, 65, 65, 65, 65, 65, 0]) ∧
    (9 : Int) ≠ 1 := by
  refine ⟨by decide, by decide, by decide⟩

/-- **C3 (amended).** For every directory descriptor created by `open`, the
cursor starts at 0 with `max = numDentries`.  Each read with `idx < max`
`strncpy`s the dentry at position `idx`'s filename into `buf` truncated to
`len` bytes, advances `idx` by one, and returns `strlen(buf)` after the
copy rather than the copied length (conjunct 2, stated for every execution
in which the C `strncpy`/`strlen` calls stay inside the modelled regions);
the return value equals the filename's length whenever the filename's
terminator sits inside its field at an index strictly below `len` and the
buffer holds at least `len` bytes (conjunct 3) — but not in general, see
the counterexample.  Once `idx` reaches `max`, every read returns 0 and
leaves the state unchanged.  `offset` is ignored throughout.  Consequently,
when every filename is non-empty and terminated inside its field below
`len ≤` buffer size, exactly `numDentries + 1` reads yield the
`numDentries` (positive) name lengths in decode order followed by `0`. -/
theorem readDir_iteration_amended :
    (∀ (fs : KissFS) (filename : List Nat) (fresh d : KissFileDescriptorData),
      fs.openFD filename fresh = some d → d.filetype = DIRECTORY →
      d.dirIdx = 0 ∧ d.dirMax = fs.numDentries) ∧
    (∀ (fs : KissFS) (data : KissFileDescriptorData) (o : Nat) (buf : List Nat)
      (len : Nat) (buf2 : List Nat) (k : Nat), data.dirIdx < data.dirMax →
      strncpy? buf (fs.dentries data.dirIdx).filename len = some buf2 →
      cstrLen? buf2 = some k →
      fs.readDir data o buf len =
        some ((k : Int), { data with dirIdx := data.dirIdx + 1 }, buf2)) ∧
    (∀ (fs : KissFS) (data : KissFileDescriptorData) (o : Nat) (buf : List Nat)
      (len k : Nat), data.dirIdx < data.dirMax →
      cstrLen? (fs.dentries data.dirIdx).filename = some k → k < len →
      len ≤ buf.length →
      ∃ buf2, fs.readDir data o buf len =
        some ((k : Int), { data with dirIdx := data.dirIdx + 1 }, buf2) ∧
        buf2.length = buf.length) ∧
    (∀ (fs : KissFS) (data : KissFileDescriptorData) (o : Nat) (buf : List Nat)
      (len : Nat), data.dirMax ≤ data.dirIdx →
      fs.readDir data o buf len = some (0, data, buf)) ∧
    (∀ (fs : KissFS) (data : KissFileDescriptorData) (o o2 : Nat)
      (buf : List Nat) (len : Nat),
      fs.readDir data o buf len = fs.readDir data o2 buf len) ∧
    (∀ (fs : KissFS) (ft ino len : Nat) (buf : List Nat),
      len ≤ buf.length →
      (∀ i, i < fs.numDentries → ∃ k, cstrLen? (fs.dentries i).filename = some k ∧
        0 < k ∧ k < len) →
      fs.readDirTrace len (fs.numDentries + 1) ⟨ft, ino, 0, fs.numDentries⟩ buf =
        some (((List.range fs.numDentries).map
          fun i => (((cstrLen? (fs.dentries i).filename).getD 0 : Nat) : Int)) ++ [0])) := by
  refine ⟨?_, ?_, ?_, ?_, ?_, ?_⟩
  · intro fs filename fresh d hopen hft
    revert hopen
    cases h : fs.dentryIndexOfFilename filename with
    | none => intro hopen; exact absurd hopen (by simp [KissFS.openFD, h])
    | some idx =>
        by_cases hd : (fs.dentries idx).filetype = DIRECTORY
        · intro hopen
          simp only [KissFS.openFD, h, hd, if_true] at hopen
          obtain rfl := Option.some.inj hopen
          exact ⟨rfl, rfl⟩
        · intro hopen
          simp only [KissFS.openFD, h, hd, if_false] at hopen
          obtain rfl := Option.some.inj hopen
          exact absurd hft hd
  · intro fs data o buf len buf2 k h hcpy hcl
    have hc : ¬ data.dirMax ≤ data.dirIdx := by omega
    simp [KissFS.readDir, hc, hcpy, hcl]
  · intro fs data o buf len k h hk hklen hblen
    have hc : ¬ data.dirMax ≤ data.dirIdx := by omega
    obtain ⟨buf2, hcpy, hcl, hlen⟩ :=
      strncpy?_spec buf (fs.dentries data.dirIdx).filename len k hk hklen hblen
    exact ⟨buf2, by simp [KissFS.readDir, hc, hcpy, hcl], hlen⟩
  · intro fs data o buf len h
    simp [KissFS.readDir, h]
  · intro fs data o o2 buf len
    rfl
  · intro fs ft ino len buf hlen hnames
    have h := readDirTrace_spec fs len
      (fun i hi => (hnames i hi).elim fun k hk => ⟨k, hk.1, hk.2.2⟩)
      fs.numDentries 0 ft ino buf (by omega) hlen
    rw [List.range_eq_range']
    exact h

/-- Witness for `readDir_iteration_amended`: on `fsD` (filenames `"."` and
`"abc"`, string lengths 1 and 3, both terminated inside the field and below
`len = 10`) the three reads on a fresh directory descriptor return
`[1, 3, 0]` — stated via the trace equation the theorem provides. -/
theorem readDir_iteration_amended_witness :
    fsD.readDirTrace 10 (fsD.numDentries + 1) ⟨1, 0, 0, fsD.numDentries⟩
      (List.replicate 10 0) =
      some (((List.range fsD.numDentries).map
        fun i => (((cstrLen? (fsD.dentries i).filename).getD 0 : Nat) : Int)) ++ [0]) :=
  readDir_iteration_amended.2.2.2.2.2 fsD 1 0 10 (List.replicate 10 0)
    (by decide)
    (by
      intro i hi
      have h2 : i < 2 := hi
      interval_cases i
      · exact ⟨1, by decide, by decide, by decide⟩
      · exact ⟨3, by decide, by decide, by decide⟩)

end filesystem
